import Mathlib

/-!
Verification of the botok-js Tibetan tokenizer core.

The definitions below are a shallow embedding of the TypeScript sources:
`src/textunits/BoString.ts` (character classification),
`src/chunks/ChunkFramework.ts` (chunking and syllabification),
`src/tries/BasicTrie.ts` (the lexical trie),
`src/tokenizers/Tokenize.ts` (the match engine),
`src/tokenizers/Token.ts` (tokens and their JSON form) and
`src/tokenizers/WordTokenizer.ts` (the public pipeline).

JavaScript strings are modelled as `List Char` (all characters involved are
single UTF-16 units, so codepoint indexing coincides with JS indexing);
`text[i]` for an out-of-range `i` is `undefined`, modelled by `Option`/`List`
operations.  Numeric enums are modelled by `Nat` constants because the code
stores enum values inside index lists.  JS loops are modelled by structural
recursion on an explicit counter equal to the number of remaining iterations,
so that all definitions reduce in the kernel.
-/

set_option maxRecDepth 10000

abbrev Str := List Char

/- Numeric enum `CharMarkers` from `src/types/index.ts`. -/
namespace CharMarkers
def CONS : Nat := 0
def SUB_CONS : Nat := 1
def VOW : Nat := 2
def TSEK : Nat := 3
def NORMAL_PUNCT : Nat := 4
def SPECIAL_PUNCT : Nat := 5
def NUMERAL : Nat := 6
def SYMBOL : Nat := 7
def IN_SYL_MARK : Nat := 8
def NON_BO_NON_SKRT : Nat := 9
def SKRT_CONS : Nat := 10
def SKRT_SUB_CONS : Nat := 11
def SKRT_VOW : Nat := 12
def TRANSPARENT : Nat := 13
def LATIN : Nat := 14
def CJK : Nat := 15
def OTHER : Nat := 16
def NFC : Nat := 17
end CharMarkers

/- Numeric enum `ChunkMarkers` from `src/types/index.ts`. -/
namespace ChunkMarkers
def TEXT : Nat := 100
def PUNCT : Nat := 101
def NON_BO : Nat := 102
def NON_PUNCT : Nat := 103
def NUM : Nat := 104
def NON_NUM : Nat := 105
def SYM : Nat := 106
def NON_SYM : Nat := 107
def BO : Nat := 108
def OTHER : Nat := 109
def LATIN : Nat := 110
def CJK : Nat := 111
end ChunkMarkers

/-- Partial record `CHUNK_VALUES` from `src/utils/constants.ts` (a partial record). -/
def CHUNK_VALUES (n : Nat) : Option String :=
  if n = 100 then some "TEXT"
  else if n = 101 then some "PUNCT"
  else if n = 102 then some "NON_PUNCT"
  else if n = 103 then some "BO"
  else if n = 104 then some "NON_BO"
  else if n = 105 then some "OTHER"
  else none

namespace BoString

/-- Source method `BoString.classifyTibetanCharacter`. -/
def classifyTibetanCharacter (cp : Nat) : Nat :=
  if 0x0F40 ≤ cp ∧ cp ≤ 0x0F6C then CharMarkers.CONS
  else if 0x0F90 ≤ cp ∧ cp ≤ 0x0FBC then CharMarkers.SUB_CONS
  else if 0x0F71 ≤ cp ∧ cp ≤ 0x0F84 then CharMarkers.VOW
  else if cp = 0x0F0B then CharMarkers.TSEK
  else if 0x0F20 ≤ cp ∧ cp ≤ 0x0F33 then CharMarkers.NUMERAL
  else if cp = 0x0F0D ∨ cp = 0x0F0E ∨ cp = 0x0F0F ∨ cp = 0x0F10 ∨ cp = 0x0F11 ∨ cp = 0x0F12 then
    CharMarkers.NORMAL_PUNCT
  else if 0x0F00 ≤ cp ∧ cp ≤ 0x0F17 then CharMarkers.SPECIAL_PUNCT
  else if 0x0F1A ≤ cp ∧ cp ≤ 0x0F1F then CharMarkers.SYMBOL
  else if cp = 0x0F7F ∨ (0x0F86 ≤ cp ∧ cp ≤ 0x0F8B) then CharMarkers.IN_SYL_MARK
  else CharMarkers.OTHER

/-- Source method `BoString.classifySanskritCharacter`. -/
def classifySanskritCharacter (cp : Nat) : Nat :=
  if 0x0915 ≤ cp ∧ cp ≤ 0x0939 then CharMarkers.SKRT_CONS
  else if 0x093E ≤ cp ∧ cp ≤ 0x094C then CharMarkers.SKRT_VOW
  else if 0x0958 ≤ cp ∧ cp ≤ 0x095F then CharMarkers.SKRT_SUB_CONS
  else CharMarkers.OTHER

/-- Source method `BoString.classifyCharacter`. -/
def classifyCharacter (c : Char) : Nat :=
  let cp := c.toNat
  if 0x0F00 ≤ cp ∧ cp ≤ 0x0FFF then classifyTibetanCharacter cp
  else if (0x0900 ≤ cp ∧ cp ≤ 0x097F) ∨ (0x0980 ≤ cp ∧ cp ≤ 0x09FF) then
    classifySanskritCharacter cp
  else if (0x0041 ≤ cp ∧ cp ≤ 0x005A) ∨ (0x0061 ≤ cp ∧ cp ≤ 0x007A) then CharMarkers.LATIN
  else if (0x4E00 ≤ cp ∧ cp ≤ 0x9FFF) ∨ (0x3400 ≤ cp ∧ cp ≤ 0x4DBF) then CharMarkers.CJK
  else if cp = 0x20 ∨ cp = 0x09 ∨ cp = 0x0A ∨ cp = 0x0D ∨ cp = 0x00A0 ∨
          cp = 0x2000 ∨ cp = 0x2001 ∨ cp = 0x2002 ∨ cp = 0x2003 ∨ cp = 0x2004 ∨ cp = 0x2005 then
    CharMarkers.TRANSPARENT
  else CharMarkers.OTHER

/-- One entry of `BoString.baseStructure` (`classifyCharacters` with the
`ignoreChars` check first). -/
def classifyAt (ignoreChars : List Char) (c : Char) : Nat :=
  if c ∈ ignoreChars then CharMarkers.TRANSPARENT else classifyCharacter c

/-- Source method `BoString.getCharType`: `undefined` (`none`) outside the text. -/
def getCharType (ignoreChars : List Char) (text : Str) (i : Nat) : Option Nat :=
  (text.get? i).map (classifyAt ignoreChars)

/-- Source method `BoString.charAt`: returns the empty string for an out-of-range index. -/
def charAt (text : Str) (i : Nat) : Str :=
  (text.get? i).toList

end BoString

namespace ChunkFramework

/-- The loop body of `ChunkFrameworkBase.chunk` / `chunkUsing` after the first
index has initialised `currentMatches`/`currentStart`.  `fuel` is the number of
remaining loop iterations (`e - i`); when it reaches `0` the loop has ended at
`i = e` and the final chunk `(curFlag, curStart, e - curStart)` is pushed
(`currentStart < e` always holds there). -/
def chunkGo (pred : Nat → Bool) (e : Nat) :
    Nat → Nat → Bool → Nat → List (Bool × Nat × Nat)
  | 0, _, f, s => [(f, s, e - s)]
  | fuel + 1, i, f, s =>
    if pred i = f then chunkGo pred e fuel (i + 1) f s
    else (f, s, i - s) :: chunkGo pred e fuel (i + 1) (pred i) i

/-- Source method `ChunkFrameworkBase.chunk`: maximal constant runs of `pred` on `[s, e)`. -/
def chunkRuns (pred : Nat → Bool) (s e : Nat) : List (Bool × Nat × Nat) :=
  if s < e then chunkGo pred e (e - s - 1) (s + 1) (pred s) s else []

/-- Source method `ChunkFrameworkBase.chunkUsing`: like `chunkRuns` but labelling runs with
chunk markers. -/
def chunkUsing (pred : Nat → Bool) (s e yesValue noValue : Nat) :
    List (Nat × Nat × Nat) :=
  (chunkRuns pred s e).map (fun r => (if r.1 then yesValue else noValue, r.2.1, r.2.2))

/-- The in-place merge loop of `ChunkFramework.syllabify`: whenever a
separator run (`true`) immediately follows a non-separator run (`false`), the
separator run's length is added to the non-separator run.  The flags are never
modified by the loop, so this pairwise pass is equivalent to the indexed
mutation in the source. -/
def mergeStep : List (Bool × Nat × Nat) → List (Bool × Nat × Nat)
  | [] => []
  | [x] => [x]
  | (b1, s1, l1) :: (b2, s2, l2) :: rest =>
    if b2 ∧ ¬ b1 then (b1, s1, l1 + l2) :: mergeStep ((b2, s2, l2) :: rest)
    else (b1, s1, l1) :: mergeStep ((b2, s2, l2) :: rest)

/-- Source method `ChunkFramework.isTsekOrLongSkrtVowel`. -/
def isTsekOrLongSkrtVowel (ignoreChars : List Char) (text : Str) (i : Nat) : Bool :=
  BoString.getCharType ignoreChars text i = some CharMarkers.TSEK ∨
  BoString.charAt text i = ['ཿ'] ∨ BoString.charAt text i = ['ཱ']

/-- Source method `ChunkFramework.syllabify` (with `yesValue = ChunkMarkers.TEXT`). -/
def syllabify (ignoreChars : List Char) (text : Str) (s e : Nat) : List (Nat × Nat × Nat) :=
  let indices := mergeStep (chunkRuns (isTsekOrLongSkrtVowel ignoreChars text) s e)
  (indices.filter (fun c => ¬ c.1)).map (fun c => (ChunkMarkers.TEXT, c.2.1, c.2.2))

/-- Source method `ChunkFramework.isBoUnicode`. -/
def isBoUnicode (ignoreChars : List Char) (text : Str) (i : Nat) : Bool :=
  match BoString.getCharType ignoreChars text i with
  | none => false
  | some t => t ≠ CharMarkers.OTHER ∧ t ≠ CharMarkers.LATIN ∧ t ≠ CharMarkers.CJK

/-- Source method `ChunkFramework.chunkBoText` with its default arguments. -/
def chunkBoText (ignoreChars : List Char) (text : Str) : List (Nat × Nat × Nat) :=
  chunkUsing (isBoUnicode ignoreChars text) 0 text.length ChunkMarkers.BO ChunkMarkers.OTHER

/-- One entry of `ChunkFramework.chunks`: the first component is the value the
source stores in the "syllable indices" slot (for Tibetan runs this is the
*triple* `[ChunkMarkers.TEXT, start, length]` produced by `syllabify`, stored
as a plain number list), the second is the `meta` triple. -/
abbrev ChunkItem := Option (List Nat) × (Nat × Nat × Nat)

/-- Source method `ChunkFramework.serveSylsToTrie`: the resulting `chunks` array. -/
def serveSylsToTrie (ignoreChars : List Char) (text : Str) : List ChunkItem :=
  (chunkBoText ignoreChars text).flatMap (fun c =>
    if c.1 = ChunkMarkers.BO then
      (syllabify ignoreChars text c.2.1 (c.2.1 + c.2.2)).map (fun syl =>
        (some [syl.1, syl.2.1, syl.2.2], (ChunkMarkers.TEXT, c.2.1, c.2.2)))
    else
      [(none, (c.1, c.2.1, c.2.2))])

/-- Source method `ChunkFramework.getCharType`: note the `|| CharMarkers.OTHER` fallback in
the source, which also replaces the falsy marker `CONS = 0` by `OTHER`. -/
def cfGetCharType (ignoreChars : List Char) (text : Str) (i : Nat) : Nat :=
  match BoString.getCharType ignoreChars text i with
  | none => CharMarkers.OTHER
  | some t => if t = 0 then CharMarkers.OTHER else t

end ChunkFramework

/-- Interface `SenseInfo` from `src/types/index.ts`; absent keys are `none`. -/
structure SenseInfo where
  pos : Option String := none
  freq : Option Int := none
  lemma' : Option Str := none
  sense : Option String := none
  affixed : Option Bool := none
deriving DecidableEq, Repr

/-- Payload `TrieNodeData` of a trie node (`senses` and `formFreq`; the `_`
bag and the rarely used extra keys carry no information in the modelled
scenarios). -/
structure NodeData where
  senses : Option (List SenseInfo) := none
  formFreq : Option Int := none
deriving DecidableEq, Repr

/-- Class `TrieNode` from `src/tries/BasicTrie.ts`; the `children` map is an
insertion-ordered association list with unique keys. -/
inductive TrieNode where
  | mk (children : List (Str × TrieNode)) (leaf : Bool) (data : NodeData)

def TrieNode.children : TrieNode → List (Str × TrieNode)
  | .mk c _ _ => c

def TrieNode.leaf : TrieNode → Bool
  | .mk _ l _ => l

def TrieNode.data : TrieNode → NodeData
  | .mk _ _ d => d

namespace BasicTrie

/-- Lookup in the children map (`Map.get`, first and only binding wins). -/
def childLookup : List (Str × TrieNode) → Str → Option TrieNode
  | [], _ => none
  | (k, v) :: rest, key => if k = key then some v else childLookup rest key

/-- Update in the children map (`Map.set`): replaces the binding if the key is
present, appends it otherwise. -/
def childSet : List (Str × TrieNode) → Str → TrieNode → List (Str × TrieNode)
  | [], k, v => [(k, v)]
  | (k', v') :: rest, k, v =>
    if k' = k then (k, v) :: rest else (k', v') :: childSet rest k v

/-- A freshly constructed `TrieNode` (empty children, not a leaf, empty data). -/
def newNode : TrieNode := .mk [] false {}

/-- An empty `BasicTrie` is just its head node. -/
def emptyTrie : TrieNode := newNode

/-- Source method `TrieNode.getChild` / `BasicTrie.walk`'s single step:
start from `currentNode` if given, else from the head, and follow one child. -/
def walk (head : TrieNode) (syl : Str) (currentNode : Option TrieNode) : Option TrieNode :=
  childLookup (currentNode.getD head).children syl

/-- Source method `BasicTrie.add` without a `data` argument: walk/extend the
path, mark the final node as a leaf and initialise its `senses` to `[]` when
absent.  The source's navigate-then-extend loop is folded into one recursion. -/
def addWord : TrieNode → List Str → TrieNode
  | t, [] =>
    let d := if t.data.senses.isNone then { t.data with senses := some [] } else t.data
    .mk t.children true d
  | t, syl :: rest =>
    match childLookup t.children syl with
    | some c => .mk (childSet t.children syl (addWord c rest)) t.leaf t.data
    | none => .mk (t.children ++ [(syl, addWord newNode rest)]) t.leaf t.data

/-- Source method `BasicTrie.isDiffMeaning` (despite the name it tests that
the two meanings agree on all five sense keys). -/
def isDiffMeaning (m1 m2 : SenseInfo) : Bool :=
  m1.pos = m2.pos ∧ m1.lemma' = m2.lemma' ∧ m1.freq = m2.freq ∧
  m1.sense = m2.sense ∧ m1.affixed = m2.affixed

/-- Source method `BasicTrie.addMeaning`: append `m` unless an identical sense
is already present; returns the new list and whether it appended. -/
def addMeaning (senses : List SenseInfo) (m : SenseInfo) : List SenseInfo × Bool :=
  if senses.any (fun s => isDiffMeaning s m) then (senses, false)
  else (senses ++ [m], true)

/-- Argument of `BasicTrie.addData`: a number (form frequency) or a sense
object. -/
inductive TrieDataArg where
  | num (n : Int)
  | obj (s : SenseInfo)

/-- Navigation to the node spelled by a word (the common loop of `hasWord`,
`addData` and `deactivate`). -/
def findNode : TrieNode → List Str → Option TrieNode
  | t, [] => some t
  | t, syl :: rest =>
    match childLookup t.children syl with
    | none => none
    | some c => findNode c rest

/-- Source method `BasicTrie.hasWord`; `none` models the thrown empty-word
error, the `Bool` is `exists` and the data is the last reached node's data. -/
def hasWordGo : TrieNode → List Str → Bool × NodeData
  | t, [] => (t.leaf, t.data)
  | t, syl :: rest =>
    match childLookup t.children syl with
    | none => (false, t.data)
    | some c => hasWordGo c rest

def hasWord (head : TrieNode) (word : List Str) : Option (Bool × NodeData) :=
  if word = [] then none else some (hasWordGo head word)

/-- Source method `BasicTrie.addData` on the nonempty-word path, as a
functional update returning the new head and the success flag. -/
def addDataGo : TrieNode → List Str → TrieDataArg → TrieNode × Bool
  | t, [], d =>
    if t.leaf then
      match d with
      | .num n => (.mk t.children t.leaf { t.data with formFreq := some n }, true)
      | .obj s =>
        let p := addMeaning (t.data.senses.getD []) s
        (.mk t.children t.leaf { t.data with senses := some p.1 }, p.2)
    else (t, false)
  | t, syl :: rest, d =>
    match childLookup t.children syl with
    | none => (t, false)
    | some c =>
      let p := addDataGo c rest d
      (.mk (childSet t.children syl p.1) t.leaf t.data, p.2)

def addData (head : TrieNode) (word : List Str) (d : TrieDataArg) :
    Option (TrieNode × Bool) :=
  if word = [] then none else some (addDataGo head word d)

/-- Source method `BasicTrie.deactivate` (with `reverse` to reactivate):
`leaf` of the reached node is set to `reverse`, with no check that the node
was a complete entry. -/
def deactivateGo : TrieNode → List Str → Bool → TrieNode × Bool
  | t, [], r => (.mk t.children r t.data, true)
  | t, syl :: rest, r =>
    match childLookup t.children syl with
    | none => (t, false)
    | some c =>
      let p := deactivateGo c rest r
      (.mk (childSet t.children syl p.1) t.leaf t.data, p.2)

def deactivate (head : TrieNode) (word : List Str) (reverse : Bool) :
    Option (TrieNode × Bool) :=
  if word = [] then none else some (deactivateGo head word reverse)

end BasicTrie

/-- Interface `AffixationInfo` (`type`, `len`, `aa`) from `src/types/index.ts`. -/
structure AffixationInfo where
  atype : String := ""
  alen : Int := 0
  aa : Bool := false
deriving DecidableEq, Repr

/-- Class `Token` from `src/tokenizers/Token.ts`.  Optional fields are `none`
when the property is unset.  The `sense` field models the property stamped
dynamically by `WordTokenizer.applyChosenSense` (the class has an index
signature); it is not part of `toJSON`. -/
structure Token where
  text : Str := []
  textCleaned : Option Str := none
  textUnaffixed : Option Str := none
  pos : Option String := none
  lemma' : Option Str := none
  freq : Option Int := none
  start : Nat := 0
  length : Nat := 0
  charTypes : Option (List Nat) := none
  chunkType : String := ""
  syllables : Option (List Str) := none
  syllableIndices : Option (List (List Int)) := none
  syllableStartEnd : Option (List (Int × Int)) := none
  senses : Option (List SenseInfo) := none
  sanskrit : Option Bool := none
  affix : Option Bool := none
  affixHost : Option Bool := none
  affixation : Option AffixationInfo := none
  sense : Option String := none
deriving DecidableEq, Repr

/-- Truthiness of an optional string (JS: `undefined` and the empty string are
falsy). -/
def optStrTruthy : Option String → Bool
  | none => false
  | some s => s ≠ ""

namespace Tokenize

open ChunkFramework

/-- JS `text.substring(start, start + length)` on the codepoint list. -/
def substringTL (text : Str) (s len : Nat) : Str := (text.drop s).take len

/-- The syllable string formed in `Tokenize.tokenize`:
`curSyl.map(i => text[i]).join('')` (out-of-range indices give `undefined`,
which `join` turns into the empty string). -/
def sylStringOf (text : Str) (cs : List Nat) : Str :=
  cs.flatMap (fun i => (text.get? i).toList)

/-- Source predicate `Tokenize.hasSanskritChar`. -/
def hasSanskritChar (charTypes : List Nat) : Bool :=
  charTypes.any (fun ct =>
    ct = CharMarkers.SKRT_VOW ∨ ct = CharMarkers.SKRT_CONS ∨ ct = CharMarkers.SKRT_SUB_CONS)

/-- JS `String.startsWith` on codepoint lists. -/
def startsWithSeq : Str → Str → Bool
  | _, [] => true
  | [], _ :: _ => false
  | c :: cs, p :: ps => c = p ∧ startsWithSeq cs ps

/-- JS `String.includes` on codepoint lists. -/
def containsSeq : Str → Str → Bool
  | [], pat => pat.isEmpty
  | c :: cs, pat => startsWithSeq (c :: cs) pat ∨ containsSeq cs pat

/-- Source predicate `Tokenize.hasSanskritSyllable`: the three two-codepoint
long-vowel sequences. -/
def hasSanskritSyllable (word : Str) : Bool :=
  containsSeq word [Char.ofNat 0x0F71, Char.ofNat 0x0F72] ∨
  containsSeq word [Char.ofNat 0x0F71, Char.ofNat 0x0F74] ∨
  containsSeq word [Char.ofNat 0x0FB2, Char.ofNat 0x0F80]

/-- Source predicate `Tokenize.isSanskrit`. -/
def isSanskrit (charTypes : List Nat) (word : Str) : Bool :=
  hasSanskritChar charTypes ∨ hasSanskritSyllable word

/-- Source method `Tokenize.createToken`.  `Object.assign(token, data)` copies
the `senses` key when present (`formFreq` would become a dynamic property that
no later code reads, so it is dropped here), and the `skrt` setter always
stores the Sanskrit flag. -/
def createToken (ignoreChars : List Char) (text : Str) (ttype : Nat) (start len : Nat)
    (syls : List (Option (List Nat))) (sylStartEnd : List (Nat × Nat)) (data : NodeData) :
    Token :=
  let charTypes := (List.range len).map (fun i => cfGetCharType ignoreChars text (start + i))
  let ttext := substringTL text start len
  let base : Token := {
    text := ttext
    chunkType := (CHUNK_VALUES ttype).getD "TEXT"
    start := start
    length := len }
  let base :=
    match syls.head? with
    | some (some _) =>
      { base with
        syllableIndices :=
          some ((syls.filterMap id).map
            (fun (syl : List Nat) => syl.map (fun s => (s : Int) - (start : Int))))
        syllableStartEnd :=
          some (sylStartEnd.map
            (fun (p : Nat × Nat) => ((p.1 : Int) - (start : Int), (p.2 : Int) - (start : Int)))) }
    | _ => base
  let base := { base with charTypes := some charTypes }
  let base :=
    match data.senses with
    | some s => { base with senses := some s }
    | none => base
  { base with sanskrit := some (isSanskrit charTypes ttext) }

/-- The `ttype` stamping done at the top of both branches of
`Tokenize.chunksToToken`. -/
def stampTtype (data : NodeData) (ttype : Option String) : NodeData :=
  match ttype with
  | none => data
  | some ty =>
    match data.senses with
    | none => { data with senses := some [{ pos := some ty }] }
    | some ss =>
      { data with senses := some (ss.map (fun m =>
          if optStrTruthy m.pos then m else { m with pos := some ty })) }

/-- Source method `Tokenize.chunksToToken`.  The empty-`syls` case throws in
the source and is unreachable in all modelled runs; it returns a default token
here.  Note the `?? 0` fallbacks: entries whose syllable slot is `null` give
`start = 0` and `length = 0`. -/
def chunksToToken (ignoreChars : List Char) (text : Str) (chunks : List ChunkItem)
    (syls : List Nat) (data : NodeData) (ttype : Option String) : Token :=
  match syls with
  | [] => {}
  | [i] =>
    match chunks.get? i with
    | none => {}
    | some cd =>
      let tokenSyls : List (Option (List Nat)) := [cd.1]
      let tokenType := cd.2.1
      let tokenStart := (cd.1.bind (fun l => l.get? 1)).getD 0
      let tokenLength := (cd.1.bind (fun l => l.get? 2)).getD 0
      let sylStartEnd := [(tokenStart, tokenStart + tokenLength)]
      createToken ignoreChars text tokenType tokenStart tokenLength tokenSyls sylStartEnd
        (stampTtype data ttype)
  | i :: _ :: _ =>
    let tokenSyls := syls.map (fun idx => (chunks.get? idx).bind (fun cd => cd.1))
    let tokenType :=
      ((chunks.get? (syls.getLast?.getD 0)).map (fun cd => cd.2.1)).getD 0
    let tokenStart :=
      (((chunks.get? i).bind (fun cd => cd.1)).bind (fun l => l.get? 1)).getD 0
    let entries := syls.filterMap (fun idx => (chunks.get? idx).bind (fun cd => cd.1))
    let tokenLength := (entries.map (fun cs => (cs.get? 2).getD 0)).sum
    let sylStartEnd := entries.map (fun cs =>
      ((cs.get? 1).getD 0, (cs.get? 1).getD 0 + (cs.get? 2).getD 0))
    createToken ignoreChars text tokenType tokenStart tokenLength tokenSyls sylStartEnd
      (stampTtype data ttype)

/-- Lookup in the `match_data` record (keys are chunk indices). -/
def mdLookup : List (Nat × NodeData) → Nat → Option NodeData
  | [], _ => none
  | (k, v) :: rest, key => if k = key then some v else mdLookup rest key

/-- Assignment `matchData[walker] = data`. -/
def mdSet : List (Nat × NodeData) → Nat → NodeData → List (Nat × NodeData)
  | [], k, v => [(k, v)]
  | (k', v') :: rest, k, v =>
    if k' = k then (k, v) :: rest else (k', v') :: mdSet rest k v

/-- The `ttype` computed in `Tokenize.addFoundWordOrNonWord`:
`NO_POS` when there are no senses or none of them carries a truthy POS. -/
def nodeTtype (data : NodeData) : Option String :=
  match data.senses with
  | none => some "NO_POS"
  | some ss => if ss.all (fun m => ¬ optStrTruthy m.pos) then some "NO_POS" else none

/-- Source method `Tokenize.addFoundWordOrNonWord`: the list of tokens pushed.
The cursor arithmetic the source performs on its `cIdx` parameter is discarded
because every call site ignores the returned value. -/
def addFoundWordOrNonWord (ignoreChars : List Char) (text : Str) (chunks : List ChunkItem)
    (cIdx : Nat) (matchData : List (Nat × NodeData)) (syls : List Nat) : List Token :=
  match mdLookup matchData cIdx with
  | some data => [chunksToToken ignoreChars text chunks syls data (nodeTtype data)]
  | none =>
    if matchData ≠ [] then
      let nonMaxIdx := (matchData.map Prod.fst).foldl max 0
      let nonMaxSyls := syls.filter (fun syl => syl ≤ nonMaxIdx)
      let data := (mdLookup matchData nonMaxIdx).getD {}
      [chunksToToken ignoreChars text chunks nonMaxSyls data (nodeTtype data)]
    else
      [chunksToToken ignoreChars text chunks [syls.headD 0] {} (some "NO_POS")]

/-- One full run of the inner `while (true)` loop of `Tokenize.tokenize`,
returning the tokens pushed and the new value of `c_idx`.  The first argument
is the number of remaining iterations; `chunks.length + 2` always suffices
because `walker` grows by one per non-breaking iteration and every branch at
`walker ≥ chunks.length` breaks. -/
def innerLoop (ignoreChars : List Char) (trie : TrieNode) (chunks : List ChunkItem)
    (text : Str) :
    Nat → Nat → Nat → List Nat → List (List Nat) → List (Nat × NodeData) →
    Option TrieNode → Option (List Token × Nat)
  | 0, _, _, _, _, _, _ => none
  | f + 1, cIdx, walker, syls, maxMatch, matchData, currentNode =>
    match (chunks.get? walker).bind (fun cd => cd.1) with
    | some cs =>
      let syl := sylStringOf text cs
      match BasicTrie.walk trie syl currentNode with
      | some node =>
        let syls' := syls ++ [walker]
        if node.leaf then
          let matchData' := mdSet matchData walker node.data
          let maxMatch' := maxMatch ++ [syls']
          if walker + 1 = chunks.length then
            let last := maxMatch'.getLast?.getD []
            some (addFoundWordOrNonWord ignoreChars text chunks
                    (cIdx + last.length - 1) matchData' last,
                  cIdx + last.length)
          else
            innerLoop ignoreChars trie chunks text f cIdx (walker + 1) syls'
              maxMatch' matchData' (some node)
        else
          if walker + 1 = chunks.length then
            if maxMatch ≠ [] then
              let last := maxMatch.getLast?.getD []
              some (addFoundWordOrNonWord ignoreChars text chunks
                      (cIdx + last.length - 1) matchData last,
                    cIdx + last.length)
            else
              some (addFoundWordOrNonWord ignoreChars text chunks walker matchData syls',
                    cIdx + syls'.length)
          else
            innerLoop ignoreChars trie chunks text f cIdx (walker + 1) syls'
              maxMatch matchData (some node)
      | none =>
        if maxMatch ≠ [] then
          let last := maxMatch.getLast?.getD []
          some (addFoundWordOrNonWord ignoreChars text chunks
                  (cIdx + last.length - 1) matchData last,
                cIdx + last.length)
        else if syls ≠ [] then
          some (addFoundWordOrNonWord ignoreChars text chunks walker matchData syls,
                if syls.length = 1 then cIdx + 1 else cIdx)
        else
          some ([chunksToToken ignoreChars text chunks [cIdx] {} none], cIdx + 1)
    | none =>
      if maxMatch ≠ [] then
        let last := maxMatch.getLast?.getD []
        some (addFoundWordOrNonWord ignoreChars text chunks
                (cIdx + last.length - 1) matchData last,
              cIdx + last.length)
      else if syls ≠ [] then
        some (addFoundWordOrNonWord ignoreChars text chunks walker matchData syls,
              if syls.length = 1 then cIdx + 1 else cIdx)
      else
        some ([chunksToToken ignoreChars text chunks [cIdx] {} none], cIdx + 1)

/-- The outer `while (c_idx < chunks.length)` loop of `Tokenize.tokenize`.
The first argument is the number of remaining outer iterations; `none` means
the fuel ran out before the loop ended. -/
def outerLoop (ignoreChars : List Char) (trie : TrieNode) (chunks : List ChunkItem)
    (text : Str) : Nat → Nat → List Token → Option (List Token)
  | 0, _, _ => none
  | f + 1, cIdx, acc =>
    if cIdx < chunks.length then
      match innerLoop ignoreChars trie chunks text (chunks.length + 2) cIdx cIdx
              [] [] [] none with
      | none => none
      | some (toks, cIdx') => outerLoop ignoreChars trie chunks text f cIdx' (acc ++ toks)
    else some acc

/-- Source method `Tokenize.tokenize` on a pre-processed `chunks` array, with
an explicit bound on the number of outer-loop iterations. -/
def tokenize (ignoreChars : List Char) (trie : TrieNode) (text : Str)
    (chunks : List ChunkItem) (fuel : Nat) : Option (List Token) :=
  outerLoop ignoreChars trie chunks text fuel 0 []

end Tokenize

/-- JSON object produced by `Token.toJSON`: the four mandatory keys plus the
optional keys that survive the falsy-omission checks.  The dynamic `sense`
property is never serialized. -/
structure JsonToken where
  text : Str := []
  start : Nat := 0
  length : Nat := 0
  chunkType : String := ""
  textCleaned : Option Str := none
  textUnaffixed : Option Str := none
  pos : Option String := none
  lemma' : Option Str := none
  freq : Option Int := none
  charTypes : Option (List Nat) := none
  syllables : Option (List Str) := none
  syllableIndices : Option (List (List Int)) := none
  syllableStartEnd : Option (List (Int × Int)) := none
  senses : Option (List SenseInfo) := none
  sanskrit : Option Bool := none
  affix : Option Bool := none
  affixHost : Option Bool := none
  affixation : Option AffixationInfo := none
deriving DecidableEq, Repr

/-- Omission of a string-valued key under `if (this.field)`: present-but-empty
strings are dropped together with absent ones. -/
def keepStr (v : Option Str) : Option Str :=
  match v with
  | some s => if s.isEmpty then none else some s
  | none => none

def keepString (v : Option String) : Option String :=
  match v with
  | some s => if s = "" then none else some s
  | none => none

/-- Omission of a boolean key under `if (this.field)`: `false` is dropped. -/
def keepTrue (v : Option Bool) : Option Bool :=
  if v = some true then some true else none

/-- Source method `Token.toJSON`.  Arrays and objects are truthy in JS even
when empty, so list- and object-valued keys are kept whenever present;
`freq` is kept under `!== undefined`, so a zero frequency is kept too. -/
def Token.toJSON (t : Token) : JsonToken := {
  text := t.text
  start := t.start
  length := t.length
  chunkType := t.chunkType
  textCleaned := keepStr t.textCleaned
  textUnaffixed := keepStr t.textUnaffixed
  pos := keepString t.pos
  lemma' := keepStr t.lemma'
  freq := t.freq
  charTypes := t.charTypes
  syllables := t.syllables
  syllableIndices := t.syllableIndices
  syllableStartEnd := t.syllableStartEnd
  senses := t.senses
  sanskrit := keepTrue t.sanskrit
  affix := keepTrue t.affix
  affixHost := keepTrue t.affixHost
  affixation := t.affixation }

/-- Source method `Token.fromJSON`: `new Token(json)` assigns every present
key onto a fresh token. -/
def Token.fromJSON (j : JsonToken) : Token := {
  text := j.text
  start := j.start
  length := j.length
  chunkType := j.chunkType
  textCleaned := j.textCleaned
  textUnaffixed := j.textUnaffixed
  pos := j.pos
  lemma' := j.lemma'
  freq := j.freq
  charTypes := j.charTypes
  syllables := j.syllables
  syllableIndices := j.syllableIndices
  syllableStartEnd := j.syllableStartEnd
  senses := j.senses
  sanskrit := j.sanskrit
  affix := j.affix
  affixHost := j.affixHost
  affixation := j.affixation }

namespace WordTokenizer

/-- Class `Config` from `src/config/Config.ts`. -/
structure Config where
  profile : String := "general"
  dialectPackPath : String := "./resources"
  dictionary : List (String × String) := []
  adjustments : List (String × String) := []

/-- JS `String.endsWith` on codepoint lists. -/
def endsWithSeq (l suf : Str) : Bool := Tokenize.startsWithSeq l.reverse suf.reverse

/-- The affix list hardcoded in `WordTokenizer.hasAffix`. -/
def affixes : List Str :=
  ["འི".toList, "ས".toList, "འང".toList, "ག".toList, "གི".toList, "གིས".toList,
   "ཀྱི".toList, "ཀྱིས".toList, "ལ".toList, "ར".toList, "རུ".toList, "ན".toList,
   "ནས".toList, "འམ".toList, "ཡང".toList, "མ".toList]

/-- Source method `WordTokenizer.hasAffix`. -/
def hasAffix (t : Token) : Bool :=
  ¬ t.text.isEmpty ∧ t.chunkType = "TEXT" ∧
  affixes.any (fun a => endsWithSeq t.text (a ++ ['་']) ∨ endsWithSeq t.text a)

/-- Source method `WordTokenizer.splitTokenAffix`: after the early return for
tokens without affixes, the implementation is a stub that returns the token
unchanged. -/
def splitTokenAffix (t : Token) : List Token :=
  if ¬ hasAffix t then [t] else [t]

/-- Source method `WordTokenizer.splitAffixed`. -/
def splitAffixed (tokens : List Token) : List Token :=
  tokens.flatMap (fun t => if hasAffix t then splitTokenAffix t else [t])

/-- The `part_lemmas` map from `WordTokenizer.getPartLemmas`. -/
def getPartLemmas : List (Str × Str) :=
  [("འི".toList, "གྱི".toList), ("ས".toList, "གྱིས".toList), ("འང".toList, "ཡང".toList),
   ("ག".toList, "འཕྲང".toList), ("གི".toList, "གྱི".toList), ("གིས".toList, "གྱིས".toList),
   ("ཀྱི".toList, "གྱི".toList), ("ཀྱིས".toList, "གྱིས".toList), ("ལ".toList, "ལ".toList),
   ("ར".toList, "ར".toList), ("རུ".toList, "རུ".toList), ("ན".toList, "ན".toList),
   ("ནས".toList, "ནས".toList), ("འམ".toList, "འམ".toList), ("ཡང".toList, "ཡང".toList),
   ("མ".toList, "མ".toList)]

def lookupPart : List (Str × Str) → Str → Option Str
  | [], _ => none
  | (k, v) :: rest, key => if k = key then some v else lookupPart rest key

/-- JS `text[i]` for a possibly negative index, as used by the `syls` getter
(`undefined` results vanish when joined). -/
def charAtInt (text : Str) (i : Int) : Str :=
  if i < 0 then [] else (text.get? i.toNat).toList

/-- The `syls` getter of `Token`: `none` models the empty-string result. -/
def sylsGetter (t : Token) : Option (List Str) :=
  match t.syllableIndices with
  | some idxs =>
    if t.text.isEmpty then none
    else some (idxs.map (fun syl => syl.flatMap (charAtInt t.text)))
  | none => none

/-- Truthiness of an optional codepoint list (absent or empty is falsy). -/
def optListTruthy (v : Option Str) : Bool :=
  match v with
  | some s => ¬ s.isEmpty
  | none => false

/-- Source method `WordTokenizer.getDefaultLemma`, for one token. -/
def getDefaultLemmaTok (t : Token) : Token :=
  if ¬ optListTruthy t.textUnaffixed then t
  else
    let u := t.textUnaffixed.getD []
    let lem :=
      if t.affix = some true ∧ ¬ t.affixHost = some true then
        let part :=
          match sylsGetter t with
          | some lists => if lists.isEmpty then [] else lists.flatten
          | none => t.text
        ((lookupPart getPartLemmas part).getD part) ++ ['་']
      else if ¬ t.affix = some true ∧ t.affixHost = some true then
        u ++ (match t.affixation with
              | some a => if a.aa then ['འ'] else []
              | none => []) ++ ['་']
      else
        u ++ (if endsWithSeq u ['་'] then [] else ['་'])
    let t2 : Token :=
      match t.senses with
      | some ss =>
        { t with senses := some (ss.map (fun s =>
            if ¬ optListTruthy s.lemma' ∧ optStrTruthy s.pos ∧ s.pos ≠ some "NON_WORD" then
              { s with lemma' := some lem }
            else s)) }
      | none => t
    match t2.senses with
    | none => { t2 with senses := some [{ lemma' := some lem }] }
    | some [] => { t2 with senses := some [{ lemma' := some lem }] }
    | some (_ :: _) => t2

/-- Number of present keys of a sense object (`Object.keys(sense).length`). -/
def senseKeyCount (s : SenseInfo) : Nat :=
  (if s.pos.isSome then 1 else 0) + (if s.freq.isSome then 1 else 0) +
  (if s.lemma'.isSome then 1 else 0) + (if s.sense.isSome then 1 else 0) +
  (if s.affixed.isSome then 1 else 0)

/-- Stable insertion step for the descending sort by key count (models one
step of the ES2019 stable `Array.sort` with comparator
`(a, b) => keys(b).length - keys(a).length`). -/
def orderedInsertDesc (x : SenseInfo) : List SenseInfo → List SenseInfo
  | [] => [x]
  | y :: ys =>
    if senseKeyCount y ≤ senseKeyCount x then x :: y :: ys
    else y :: orderedInsertDesc x ys

/-- Stable descending sort by key count. -/
def sortDesc : List SenseInfo → List SenseInfo
  | [] => []
  | x :: xs => orderedInsertDesc x (sortDesc xs)

/-- Source method `WordTokenizer.chooseBestSense`:
`senses.sort((a, b) => keys(b).length - keys(a).length)[0]`. -/
def chooseBestSense (ss : List SenseInfo) : Option SenseInfo :=
  (sortDesc ss).head?

/-- Source method `WordTokenizer.applyChosenSense`: copy the `pos`, `lemma`,
`freq` and `sense` attributes that are present on the chosen sense. -/
def applyChosenSense (t : Token) (s : SenseInfo) : Token :=
  let t := match s.pos with | some v => { t with pos := some v } | none => t
  let t := match s.lemma' with | some v => { t with lemma' := some v } | none => t
  let t := match s.freq with | some v => { t with freq := some v } | none => t
  match s.sense with | some v => { t with sense := some v } | none => t

/-- Source method `WordTokenizer.chooseDefaultEntry`, for one token. -/
def chooseDefaultEntryTok (t : Token) : Token :=
  match t.senses with
  | some ss =>
    if ss.length > 0 then
      let affixed := ss.filter (fun s => s.affixed = some true)
      let nonAffixed := ss.filter (fun s => s.affixed = some false)
      let noAffixInfo := ss.filter (fun s => s.affixed = none)
      let chosen :=
        if 0 < nonAffixed.length then chooseBestSense nonAffixed
        else if 0 < noAffixInfo.length then chooseBestSense noAffixInfo
        else if 0 < affixed.length then chooseBestSense affixed
        else none
      match chosen with
      | some s => applyChosenSense t s
      | none => t
    else t
  | none => t

/-- Source method `WordTokenizer.tokenize`: the constructor builds the engine
over a freshly created empty trie (`new Tokenize(new BasicTrie())`), ignoring
the configured dictionary, then runs affix splitting, default lemmas and sense
selection. -/
def tokenize (config : Config) (ignoreChars : List Char) (text : Str)
    (splitAffixes : Bool) (spacesAsPunct : Bool) : Option (List Token) :=
  let chunks := ChunkFramework.serveSylsToTrie ignoreChars text
  match Tokenize.tokenize ignoreChars BasicTrie.emptyTrie text chunks (chunks.length + 1) with
  | none => none
  | some toks =>
    let toks := if splitAffixes then splitAffixed toks else toks
    let toks := toks.map getDefaultLemmaTok
    let toks := toks.map chooseDefaultEntryTok
    some toks

end WordTokenizer

/-! Concrete scenario data and the auxiliary predicates used by the theorems
below.  `SpanShape`, `firstNonemptyBucket` and `firstMaxSense` restate the
specification's wording, to be compared with the behaviour of the embedded
source functions. -/

/- Input and dictionary exhibiting the non-advancing outer-loop path of
`Tokenize.tokenize`: the trie walks two syllable chunks without reaching a
leaf and then dead-ends, after which `c_idx` is never advanced because the
call sites discard the cursor returned by `addFoundWordOrNonWord`. -/

def c1text : Str := "ཀ་ཁ་ཀ".toList

def c1trie : TrieNode :=
  BasicTrie.addWord BasicTrie.emptyTrie ["ཀཁ".toList, "ཁཁ".toList, "ཟ".toList]

def c1chunks : List ChunkFramework.ChunkItem := ChunkFramework.serveSylsToTrie [] c1text

def c1token : Token := Tokenize.chunksToToken [] c1text c1chunks [0] {} (some "NO_POS")

/- Tokens actually produced for the input `"ཀA"` with the empty trie. -/

def c2tokA : Token :=
  { text := "ཀ".toList, start := 0, length := 1, charTypes := some [16],
    chunkType := "TEXT", syllableIndices := some [[100, 0, 1]],
    syllableStartEnd := some [(0, 1)], sanskrit := some false }

def c2tokB : Token :=
  { text := [], start := 0, length := 0, charTypes := some [],
    chunkType := "TEXT", sanskrit := some false }

/- Tokens actually produced for the greeting scenario S1. -/

def c5tok1 : Token :=
  { text := "བཀྲ་".toList, start := 0, length := 4, charTypes := some [16, 16, 1, 3],
    chunkType := "TEXT", syllableIndices := some [[100, 0, 4]],
    syllableStartEnd := some [(0, 4)], sanskrit := some false }

def c5tok2 : Token :=
  { text := "ཤིས།".toList, start := 4, length := 4, charTypes := some [16, 2, 16, 4],
    chunkType := "TEXT", syllableIndices := some [[96, 0, 0]],
    syllableStartEnd := some [(0, 4)], sanskrit := some false }

/- A trie containing only the two-syllable word `ཀ ཁ`: the node reached by
the one-syllable word `ཀ` exists but is not a leaf. -/

def c8trie : TrieNode := BasicTrie.addWord BasicTrie.emptyTrie ["ཀ".toList, "ཁ".toList]

/-- Shape of a span returned by the embedded `syllabify` (stated from the
amended specification wording): a nonempty block of non-separator codepoints
followed by a possibly empty suffix of separator codepoints. -/
def SpanShape (pred : Nat → Bool) (st len : Nat) : Prop :=
  0 < len ∧ ∃ m, 0 < m ∧ m ≤ len ∧
    (∀ i, st ≤ i → i < st + m → pred i = false) ∧
    (∀ i, st + m ≤ i → i < st + len → pred i = true)

/-- Characterisation of the output of the run-scanning loop `chunkGo`:
`RunList pred e s L` says `L` partitions `[s, e)` into nonempty contiguous
runs on which `pred` is constant, with the flag flipping between adjacent
runs. -/
inductive RunList (pred : Nat → Bool) (e : Nat) : Nat → List (Bool × Nat × Nat) → Prop
  | single (s : Nat) (f : Bool) (hse : s < e)
      (hconst : ∀ j, s ≤ j → j < e → pred j = f) :
      RunList pred e s [(f, s, e - s)]
  | cons (s m : Nat) (f : Bool) (L : List (Bool × Nat × Nat))
      (hsm : s < m) (hme : m < e)
      (hconst : ∀ j, s ≤ j → j < m → pred j = f)
      (hflip : pred m ≠ f)
      (htail : RunList pred e m L) :
      RunList pred e s ((f, s, m - s) :: L)

/-- Start of the first non-separator run of a run list (`e` when there is
none); spans produced from the list all start at or after this index. -/
def falseStart (e : Nat) : List (Bool × Nat × Nat) → Nat
  | [] => e
  | (f, s, _) :: rest => if f then falseStart e rest else s

/-- The merge-filter-map tail of `syllabify`, factored out of the embedded
definition so that it can be analysed against an arbitrary run list. -/
def fullProcess (L : List (Bool × Nat × Nat)) : List (Nat × Nat × Nat) :=
  ((ChunkFramework.mergeStep L).filter (fun c => ¬ c.1)).map
    (fun c => (ChunkMarkers.TEXT, c.2.1, c.2.2))

/-- Restatement of the specification's sense-selection bucketing: explicitly
non-affixed senses first, then senses with no affix information, then
explicitly affixed ones. -/
def firstNonemptyBucket (ss : List SenseInfo) : List SenseInfo :=
  let nonAffixed := ss.filter (fun s => s.affixed = some false)
  let noAffixInfo := ss.filter (fun s => s.affixed = none)
  let affixed := ss.filter (fun s => s.affixed = some true)
  if 0 < nonAffixed.length then nonAffixed
  else if 0 < noAffixInfo.length then noAffixInfo
  else affixed

/-- Choice between the current element and the best sense found to its right:
the later sense wins only with a strictly larger key count. -/
def betterSense (x : SenseInfo) : Option SenseInfo → SenseInfo
  | none => x
  | some m =>
    if WordTokenizer.senseKeyCount m > WordTokenizer.senseKeyCount x then m else x

/-- First sense of maximal key count in a list (the specification's "sense
with the largest number of populated attributes", with the stable sort's
first-occurrence tie-break). -/
def firstMaxSense : List SenseInfo → Option SenseInfo
  | [] => none
  | x :: xs => some (betterSense x (firstMaxSense xs))

/-! Theorems. -/

lemma c1_inner_eval :
    Tokenize.innerLoop [] c1trie c1chunks c1text (c1chunks.length + 2) 0 0 [] [] [] none =
      some ([c1token], 0) := by decide

lemma c1_chunks_pos : 0 < c1chunks.length := by decide

lemma c1_outer_none : ∀ f acc, Tokenize.outerLoop [] c1trie c1chunks c1text f 0 acc = none := by
  intro f
  induction f with
  | zero => intro acc; rfl
  | succ n ih =>
    intro acc
    rw [Tokenize.outerLoop, if_pos c1_chunks_pos, c1_inner_eval]
    exact ih (acc ++ [c1token])

/-- C1: refuted as stated.  The spec claims every call of `Tokenize.tokenize`
terminates with the cursor making progress, but on the text `"ཀ་ཁ་ཀ"` with a
trie containing the single three-syllable entry `["ཀཁ", "ཁཁ", "ཟ"]` the outer
loop repeats forever at `c_idx = 0` (the cursor returned by
`addFoundWordOrNonWord` is discarded at every call site), so no finite
iteration bound suffices. -/
theorem tokenize_diverges_on_kakha :
    ∀ fuel, Tokenize.tokenize [] c1trie c1text c1chunks fuel = none :=
  fun fuel => c1_outer_none fuel []

/-- C2: refuted as stated.  On the input `"ཀA"` with the empty trie the
second token (for the Latin chunk) is emitted with `start = 0` and
`length = 0` (the `?? 0` fallbacks of `chunksToToken` for entries with a
`null` syllable slot), so the adjacent-token ordering
`t0.start + t0.length ≤ t1.start` fails, and the uncovered codepoint at
index 1 has category `LATIN`, not `Tsek` or `Transparent`. -/
theorem tokenize_kaA_breaks_span_invariant :
    Tokenize.tokenize [] BasicTrie.emptyTrie "ཀA".toList
        (ChunkFramework.serveSylsToTrie [] "ཀA".toList) 3 = some [c2tokA, c2tokB] ∧
    ¬ (c2tokA.start + c2tokA.length ≤ c2tokB.start) ∧
    BoString.getCharType [] "ཀA".toList 1 = some CharMarkers.LATIN := by decide

/-- C3: refuted as stated.  For the Tibetan run of `"བཀྲ་ཤིས།"`,
`serveSylsToTrie` stores the triple `[ChunkMarkers.TEXT, start, length]`
(that is `[100, 0, 4]`) in the syllable slot instead of the list of codepoint
offsets of the syllable, and its `meta` reuses the whole run's span `(0, 8)`
instead of the syllable's; consequently the string walked into the trie is
`text[100] + text[0] + text[4] = "བཤ"`, not the syllable's own text. -/
theorem serveSylsToTrie_emits_triple_not_offsets :
    ChunkFramework.serveSylsToTrie [] "བཀྲ་ཤིས།".toList =
      [(some [100, 0, 4], (100, 0, 8)), (some [100, 4, 4], (100, 0, 8))] ∧
    Tokenize.sylStringOf "བཀྲ་ཤིས།".toList [100, 0, 4] = "བཤ".toList := by decide

/-- C5: refuted as stated.  Tokenizing `"བཀྲ་ཤིས།"` with the empty trie yields
two `TEXT` tokens `"བཀྲ་"` and `"ཤིས།"` (the shad is classified as part of the
Tibetan run by `isBoUnicode` and the trailing tsek is absorbed into the first
syllable), with no POS assigned at all — not the three tokens
`Text "བཀྲ" NO_POS`, `Text "ཤིས" NO_POS`, `Punct "།"` of the claim. -/
theorem tokenize_greeting_actual_output :
    Tokenize.tokenize [] BasicTrie.emptyTrie "བཀྲ་ཤིས།".toList
        (ChunkFramework.serveSylsToTrie [] "བཀྲ་ཤིས།".toList) 3 =
      some [c5tok1, c5tok2] := by decide

/-- C6: refuted as stated.  `splitAffixed` is the identity on every token
list: `splitTokenAffix` is a stub that returns its argument unchanged, so a
`TEXT` token ending in the affix `ཀྱི` is recognised by `hasAffix` but is
neither split into host and affix tokens nor marked `affix_host`/`affix`. -/
theorem splitAffixed_never_splits :
    (∀ ts : List Token, WordTokenizer.splitAffixed ts = ts) ∧
    WordTokenizer.hasAffix { text := "བོད་ཀྱི".toList, chunkType := "TEXT" } = true ∧
    WordTokenizer.splitAffixed [{ text := "བོད་ཀྱི".toList, chunkType := "TEXT" }] =
      [{ text := "བོད་ཀྱི".toList, chunkType := "TEXT" }] := by
  refine ⟨?_, by decide, by decide⟩
  intro ts
  induction ts with
  | nil => rfl
  | cons t ts ih =>
    simp only [WordTokenizer.splitAffixed, WordTokenizer.splitTokenAffix] at ih ⊢
    by_cases h : WordTokenizer.hasAffix t = true <;> simp [h, ih]

/-- C10: confirmed.  `WordTokenizer` builds its engine over a freshly created
empty `BasicTrie` and never consults the configuration's dictionary, so the
token list is identical under any two configurations. -/
theorem wordTokenizer_output_independent_of_config :
    ∀ (cfg1 cfg2 : WordTokenizer.Config) (ignoreChars : List Char) (text : Str)
      (splitAffixes spacesAsPunct : Bool),
      WordTokenizer.tokenize cfg1 ignoreChars text splitAffixes spacesAsPunct =
        WordTokenizer.tokenize cfg2 ignoreChars text splitAffixes spacesAsPunct := by
  intro cfg1 cfg2 ignoreChars text splitAffixes spacesAsPunct
  rfl

/-- C8 counterexample: `deactivate` does not check that the reached node is a
complete active entry.  In a trie containing only the word `ཀ ཁ`, the path
`ཀ` exists but its node is not a leaf, and `deactivate` still returns `true`,
contradicting the claim that it returns false for words that are not complete
active entries. -/
theorem deactivate_prefix_returns_true :
    (BasicTrie.findNode c8trie ["ཀ".toList]).map TrieNode.leaf = some false ∧
    (BasicTrie.deactivate c8trie ["ཀ".toList] false).map Prod.snd = some true :=
  ⟨rfl, rfl⟩

/-- C9 counterexample: a token whose `sanskrit` field is present with value
`false` (as every token produced by `createToken` on non-Sanskrit text is) is
not recovered by `fromJSON ∘ toJSON`, because `toJSON` drops falsy optional
fields. -/
theorem token_json_roundtrip_fails_on_false_flag :
    Token.fromJSON (Token.toJSON { chunkType := "TEXT", sanskrit := some false }) ≠
      ({ chunkType := "TEXT", sanskrit := some false } : Token) := by decide

lemma keepStr_of_ne (v : Option Str) (h : v ≠ some []) : keepStr v = v := by
  cases v with
  | none => rfl
  | some s =>
    cases s with
    | nil => exact absurd rfl h
    | cons c cs => rfl

lemma keepString_of_ne (v : Option String) (h : v ≠ some "") : keepString v = v := by
  cases v with
  | none => rfl
  | some s =>
    simp only [keepString]
    rw [if_neg]
    intro hs
    exact h (by rw [hs])

lemma keepTrue_of_ne (v : Option Bool) (h : v ≠ some false) : keepTrue v = v := by
  cases v with
  | none => rfl
  | some b =>
    cases b with
    | true => rfl
    | false => exact absurd rfl h

/-- C9 (amended): `Token.fromJSON ∘ Token.toJSON` is the identity on every
token none of whose optional string fields is present but empty, none of
whose optional boolean flags is present but `false`, and which carries no
dynamically stamped sense label; `toJSON` omits optional fields that are
absent or falsy, except `freq`, which is kept whenever present (even `0`). -/
theorem token_json_roundtrip_nonfalsy (t : Token)
    (h1 : t.textCleaned ≠ some []) (h2 : t.textUnaffixed ≠ some [])
    (h3 : t.pos ≠ some "") (h4 : t.lemma' ≠ some [])
    (h5 : t.sanskrit ≠ some false) (h6 : t.affix ≠ some false)
    (h7 : t.affixHost ≠ some false) (h8 : t.sense = none) :
    Token.fromJSON (Token.toJSON t) = t := by
  obtain ⟨tx, tc, tu, ps, lm, fq, st, ln, ct, cht, syl, syli, sylse, sens, skrt, afx, afxh, afxn, sns⟩ := t
  simp only at h1 h2 h3 h4 h5 h6 h7 h8
  simp only [Token.toJSON, Token.fromJSON, Token.mk.injEq]
  simp [keepStr_of_ne _ h1, keepStr_of_ne _ h2, keepString_of_ne _ h3,
    keepStr_of_ne _ h4, keepTrue_of_ne _ h5, keepTrue_of_ne _ h6,
    keepTrue_of_ne _ h7, h8]

/-- Witness for the amended C9 round-trip theorem at a concrete token. -/
theorem token_json_roundtrip_nonfalsy_witness :
    Token.fromJSON (Token.toJSON
      { text := "ཀ".toList, chunkType := "TEXT", pos := some "NOUN",
        freq := some 0, sanskrit := some true }) =
      { text := "ཀ".toList, chunkType := "TEXT", pos := some "NOUN",
        freq := some 0, sanskrit := some true } :=
  token_json_roundtrip_nonfalsy _ (by decide) (by decide) (by decide) (by decide)
    (by decide) (by decide) (by decide) (by decide)

lemma TrieNode.eta (t : TrieNode) : TrieNode.mk t.children t.leaf t.data = t := by
  cases t
  rfl

lemma childSet_lookup_self :
    ∀ (cs : List (Str × TrieNode)) (k : Str) (c : TrieNode),
      BasicTrie.childLookup cs k = some c → BasicTrie.childSet cs k c = cs := by
  intro cs
  induction cs with
  | nil => intro k c h; cases h
  | cons p rest ih =>
    intro k c h
    obtain ⟨k', v'⟩ := p
    simp only [BasicTrie.childLookup] at h
    simp only [BasicTrie.childSet]
    by_cases hk : k' = k
    · rw [if_pos hk] at h
      obtain rfl := Option.some.inj h
      rw [if_pos hk, hk]
    · rw [if_neg hk] at h
      rw [if_neg hk, ih k c h]

lemma addDataGo_not_found :
    ∀ (w : List Str) (t : TrieNode) (d : BasicTrie.TrieDataArg),
      BasicTrie.findNode t w = none → BasicTrie.addDataGo t w d = (t, false) := by
  intro w
  induction w with
  | nil => intro t d h; cases h
  | cons s rest ih =>
    intro t d h
    simp only [BasicTrie.findNode] at h
    simp only [BasicTrie.addDataGo]
    cases hc : BasicTrie.childLookup t.children s with
    | none => simp [hc]
    | some c =>
      rw [hc] at h
      simp [hc, ih c d h, childSet_lookup_self _ _ _ hc, TrieNode.eta]

lemma addDataGo_not_leaf :
    ∀ (w : List Str) (t n : TrieNode) (d : BasicTrie.TrieDataArg),
      BasicTrie.findNode t w = some n → n.leaf = false →
      BasicTrie.addDataGo t w d = (t, false) := by
  intro w
  induction w with
  | nil =>
    intro t n d h hl
    obtain rfl := Option.some.inj h
    simp [BasicTrie.addDataGo, hl]
  | cons s rest ih =>
    intro t n d h hl
    simp only [BasicTrie.findNode] at h
    simp only [BasicTrie.addDataGo]
    cases hc : BasicTrie.childLookup t.children s with
    | none => simp [hc] at h
    | some c =>
      rw [hc] at h
      simp [hc, ih c n d h hl, childSet_lookup_self _ _ _ hc, TrieNode.eta]

lemma deactivateGo_not_found :
    ∀ (w : List Str) (t : TrieNode) (r : Bool),
      BasicTrie.findNode t w = none → BasicTrie.deactivateGo t w r = (t, false) := by
  intro w
  induction w with
  | nil => intro t r h; cases h
  | cons s rest ih =>
    intro t r h
    simp only [BasicTrie.findNode] at h
    simp only [BasicTrie.deactivateGo]
    cases hc : BasicTrie.childLookup t.children s with
    | none => simp [hc]
    | some c =>
      rw [hc] at h
      simp [hc, ih c r h, childSet_lookup_self _ _ _ hc, TrieNode.eta]

lemma deactivateGo_found :
    ∀ (w : List Str) (t n : TrieNode) (r : Bool),
      BasicTrie.findNode t w = some n → (BasicTrie.deactivateGo t w r).2 = true := by
  intro w
  induction w with
  | nil => intro t n r _; rfl
  | cons s rest ih =>
    intro t n r h
    simp only [BasicTrie.findNode] at h
    simp only [BasicTrie.deactivateGo]
    cases hc : BasicTrie.childLookup t.children s with
    | none => simp [hc] at h
    | some c =>
      rw [hc] at h
      simpa using ih c n r h

/-- C8 (amended): `hasWord`, `addData` and `deactivate` fail with the
empty-word error on empty input; `addData` returns `false` and leaves the trie
unchanged both when the word's path is missing and when the reached node is
not an active entry; but `deactivate` returns `false` (leaving the trie
unchanged) only when the path is missing — whenever the path exists, even at
a non-leaf node, it returns `true`. -/
theorem trie_modification_guards :
    (∀ (t : TrieNode) (d : BasicTrie.TrieDataArg) (r : Bool),
      BasicTrie.hasWord t [] = none ∧ BasicTrie.addData t [] d = none ∧
      BasicTrie.deactivate t [] r = none) ∧
    (∀ (t : TrieNode) (w : List Str) (d : BasicTrie.TrieDataArg),
      BasicTrie.findNode t w = none → BasicTrie.addData t w d = some (t, false)) ∧
    (∀ (t n : TrieNode) (w : List Str) (d : BasicTrie.TrieDataArg), w ≠ [] →
      BasicTrie.findNode t w = some n → n.leaf = false →
      BasicTrie.addData t w d = some (t, false)) ∧
    (∀ (t : TrieNode) (w : List Str) (r : Bool),
      BasicTrie.findNode t w = none → BasicTrie.deactivate t w r = some (t, false)) ∧
    (∀ (t n : TrieNode) (w : List Str) (r : Bool), w ≠ [] →
      BasicTrie.findNode t w = some n →
      (BasicTrie.deactivate t w r).map Prod.snd = some true) := by
  refine ⟨fun t d r => ⟨rfl, rfl, rfl⟩, ?_, ?_, ?_, ?_⟩
  · intro t w d h
    have hw : w ≠ [] := by rintro rfl; cases h
    simp [BasicTrie.addData, hw, addDataGo_not_found w t d h]
  · intro t n w d hw h hl
    simp [BasicTrie.addData, hw, addDataGo_not_leaf w t n d h hl]
  · intro t w r h
    have hw : w ≠ [] := by rintro rfl; cases h
    simp [BasicTrie.deactivate, hw, deactivateGo_not_found w t r h]
  · intro t n w r hw h
    simp [BasicTrie.deactivate, hw, deactivateGo_found w t n r h]

/-- Witness for the amended C8 theorem: on the two-word trie `c8trie`,
`addData` of the absent word `མ` returns `false` and leaves the trie
unchanged. -/
theorem trie_modification_guards_witness :
    BasicTrie.addData c8trie ["མ".toList] (BasicTrie.TrieDataArg.num 1) =
      some (c8trie, false) :=
  trie_modification_guards.2.1 c8trie ["མ".toList] (BasicTrie.TrieDataArg.num 1) rfl

lemma sortDesc_head : ∀ l : List SenseInfo, (WordTokenizer.sortDesc l).head? = firstMaxSense l := by
  intro l
  induction l with
  | nil => rfl
  | cons x xs ih =>
    simp only [WordTokenizer.sortDesc, firstMaxSense]
    cases h : WordTokenizer.sortDesc xs with
    | nil =>
      rw [h] at ih
      rw [← ih]
      simp [WordTokenizer.orderedInsertDesc, betterSense]
    | cons y ys =>
      rw [h] at ih
      rw [← ih]
      simp only [WordTokenizer.orderedInsertDesc, List.head?, betterSense]
      by_cases hc : WordTokenizer.senseKeyCount y ≤ WordTokenizer.senseKeyCount x
      · rw [if_pos hc, if_neg (Nat.not_lt.mpr hc)]
      · rw [if_neg hc, if_pos (Nat.lt_of_not_le hc)]

lemma firstMaxSense_eq_none : ∀ l : List SenseInfo, firstMaxSense l = none → l = [] := by
  intro l h
  cases l with
  | nil => rfl
  | cons x xs => simp [firstMaxSense] at h

lemma firstMaxSense_spec :
    ∀ (l : List SenseInfo) (m : SenseInfo), firstMaxSense l = some m →
      m ∈ l ∧ ∀ s ∈ l, WordTokenizer.senseKeyCount s ≤ WordTokenizer.senseKeyCount m := by
  intro l
  induction l with
  | nil => intro m h; cases h
  | cons x xs ih =>
    intro m h
    simp only [firstMaxSense] at h
    obtain rfl := Option.some.inj h
    cases hx : firstMaxSense xs with
    | none =>
      obtain rfl := firstMaxSense_eq_none xs hx
      simp only [betterSense, hx]
      refine ⟨List.mem_cons_self _ _, ?_⟩
      intro s hs
      rcases List.mem_cons.mp hs with rfl | hmem
      · exact le_refl _
      · cases hmem
    | some y =>
      obtain ⟨hy_mem, hy_max⟩ := ih y hx
      simp only [betterSense, hx]
      by_cases hc : WordTokenizer.senseKeyCount y > WordTokenizer.senseKeyCount x
      · rw [if_pos hc]
        refine ⟨List.mem_cons_of_mem _ hy_mem, ?_⟩
        intro s hs
        rcases List.mem_cons.mp hs with rfl | hmem
        · exact Nat.le_of_lt hc
        · exact hy_max s hmem
      · rw [if_neg hc]
        refine ⟨List.mem_cons_self _ _, ?_⟩
        intro s hs
        rcases List.mem_cons.mp hs with rfl | hmem
        · exact le_refl _
        · exact Nat.le_trans (hy_max s hmem) (Nat.le_of_not_lt hc)

lemma chooseBestSense_spec (l : List SenseInfo) (hne : l ≠ []) :
    ∃ m, WordTokenizer.chooseBestSense l = some m ∧ m ∈ l ∧
      ∀ s ∈ l, WordTokenizer.senseKeyCount s ≤ WordTokenizer.senseKeyCount m := by
  have hhead : WordTokenizer.chooseBestSense l = firstMaxSense l := sortDesc_head l
  cases hm : firstMaxSense l with
  | none => exact absurd (firstMaxSense_eq_none l hm) hne
  | some m =>
    obtain ⟨h1, h2⟩ := firstMaxSense_spec l m hm
    exact ⟨m, by rw [hhead, hm], h1, h2⟩

lemma bucket_cover (ss : List SenseInfo) (hne : ss ≠ [])
    (hna : ss.filter (fun s => s.affixed = some false) = [])
    (hni : ss.filter (fun s => s.affixed = none) = []) :
    ss.filter (fun s => s.affixed = some true) ≠ [] := by
  cases ss with
  | nil => exact absurd rfl hne
  | cons x xs =>
    intro haf
    cases hx : x.affixed with
    | none =>
      have hmem : x ∈ ([] : List SenseInfo) := by
        rw [← hni]
        exact List.mem_filter.mpr ⟨List.mem_cons_self _ _, by simp [hx]⟩
      cases hmem
    | some b =>
      cases b with
      | false =>
        have hmem : x ∈ ([] : List SenseInfo) := by
          rw [← hna]
          exact List.mem_filter.mpr ⟨List.mem_cons_self _ _, by simp [hx]⟩
        cases hmem
      | true =>
        have hmem : x ∈ ([] : List SenseInfo) := by
          rw [← haf]
          exact List.mem_filter.mpr ⟨List.mem_cons_self _ _, by simp [hx]⟩
        cases hmem

lemma chooseDefaultEntryTok_eq (t : Token) (ss : List SenseInfo)
    (hsen : t.senses = some ss) (hne : ss ≠ []) :
    WordTokenizer.chooseDefaultEntryTok t =
      match WordTokenizer.chooseBestSense (firstNonemptyBucket ss) with
      | some s => WordTokenizer.applyChosenSense t s
      | none => t := by
  simp only [WordTokenizer.chooseDefaultEntryTok, hsen, firstNonemptyBucket]
  rw [if_pos (List.length_pos.mpr hne)]
  split_ifs with h1 h2 h3
  · rfl
  · rfl
  · rfl
  · have hC : ss.filter (fun s => s.affixed = some true) = [] :=
      List.eq_nil_of_length_eq_zero (Nat.eq_zero_of_not_pos h3)
    rw [hC]
    rfl

lemma firstNonemptyBucket_ne_nil (ss : List SenseInfo) (hne : ss ≠ []) :
    firstNonemptyBucket ss ≠ [] := by
  simp only [firstNonemptyBucket]
  split_ifs with h1 h2
  · exact List.length_pos.mp h1
  · exact List.length_pos.mp h2
  · exact bucket_cover ss hne
      (List.eq_nil_of_length_eq_zero (Nat.eq_zero_of_not_pos h1))
      (List.eq_nil_of_length_eq_zero (Nat.eq_zero_of_not_pos h2))

/-- C7: confirmed.  For every token with a nonempty senses list, sense
selection chooses, from the first nonempty bucket in the order explicitly
non-affixed / unspecified / explicitly affixed, a sense of maximal key count,
and updates the token by copying that sense's present `pos`, `lemma`, `freq`
and `sense` attributes (`applyChosenSense`); in particular on the senses
`[(pos A, affixed), (pos B, non-affixed, lemma L), (pos C)]` the token's `pos`
becomes `B`. -/
theorem chooseDefaultEntry_selects_best_nonaffixed :
    (∀ (t : Token) (ss : List SenseInfo), t.senses = some ss → ss ≠ [] →
      ∃ chosen, chosen ∈ firstNonemptyBucket ss ∧
        (∀ s ∈ firstNonemptyBucket ss,
          WordTokenizer.senseKeyCount s ≤ WordTokenizer.senseKeyCount chosen) ∧
        WordTokenizer.chooseDefaultEntryTok t = WordTokenizer.applyChosenSense t chosen) ∧
    (WordTokenizer.chooseDefaultEntryTok
        { senses := some [{ pos := some "A", affixed := some true },
                          { pos := some "B", affixed := some false, lemma' := some "L".toList },
                          { pos := some "C" }] } : Token).pos = some "B" := by
  constructor
  · intro t ss hsen hne
    obtain ⟨m, hcbs, hmem, hmax⟩ :=
      chooseBestSense_spec (firstNonemptyBucket ss) (firstNonemptyBucket_ne_nil ss hne)
    refine ⟨m, hmem, hmax, ?_⟩
    rw [chooseDefaultEntryTok_eq t ss hsen hne, hcbs]
  · decide

/-- Witness for the C7 theorem at a concrete single-sense token. -/
theorem chooseDefaultEntry_selects_best_nonaffixed_witness :
    ∃ chosen, chosen ∈ firstNonemptyBucket [{ pos := some "X" }] ∧
      (∀ s ∈ firstNonemptyBucket [{ pos := some "X" }],
        WordTokenizer.senseKeyCount s ≤ WordTokenizer.senseKeyCount chosen) ∧
      WordTokenizer.chooseDefaultEntryTok { senses := some [{ pos := some "X" }] } =
        WordTokenizer.applyChosenSense { senses := some [{ pos := some "X" }] } chosen :=
  chooseDefaultEntry_selects_best_nonaffixed.1
    { senses := some [{ pos := some "X" }] } [{ pos := some "X" }] rfl (by decide)

lemma chunkGo_runs (pred : Nat → Bool) (e : Nat) :
    ∀ (fuel i : Nat) (f : Bool) (s : Nat), i + fuel = e → s < i →
      (∀ j, s ≤ j → j < i → pred j = f) →
      RunList pred e s (ChunkFramework.chunkGo pred e fuel i f s) := by
  intro fuel
  induction fuel with
  | zero =>
    intro i f s hie hsi hconst
    have hie' : i = e := by omega
    subst hie'
    exact RunList.single s f hsi hconst
  | succ n ih =>
    intro i f s hie hsi hconst
    have hielt : i < e := by omega
    by_cases hp : pred i = f
    · rw [ChunkFramework.chunkGo, if_pos hp]
      refine ih (i + 1) f s (by omega) (by omega) ?_
      intro j h1 h2
      rcases Nat.lt_succ_iff_lt_or_eq.mp h2 with h | h
      · exact hconst j h1 h
      · subst h; exact hp
    · rw [ChunkFramework.chunkGo, if_neg hp]
      refine RunList.cons s i f _ hsi hielt hconst hp ?_
      refine ih (i + 1) (pred i) i (by omega) (by omega) ?_
      intro j h1 h2
      have : j = i := by omega
      subst this
      rfl

lemma chunkRuns_runs (pred : Nat → Bool) (s e : Nat) (hse : s < e) :
    RunList pred e s (ChunkFramework.chunkRuns pred s e) := by
  rw [ChunkFramework.chunkRuns, if_pos hse]
  refine chunkGo_runs pred e (e - s - 1) (s + 1) (pred s) s (by omega) (by omega) ?_
  intro j h1 h2
  have : j = s := by omega
  subst this
  rfl

lemma RunList_ne_nil {pred : Nat → Bool} {e s : Nat} {L : List (Bool × Nat × Nat)}
    (h : RunList pred e s L) : L ≠ [] := by
  cases h <;> simp

lemma RunList_cons_inv {pred : Nat → Bool} {e s : Nat} {f : Bool} {s2 len : Nat}
    {rest : List (Bool × Nat × Nat)}
    (h : RunList pred e s ((f, s2, len) :: rest)) :
    s2 = s ∧ 0 < len ∧ (∀ j, s ≤ j → j < s + len → pred j = f) ∧
    ((rest = [] ∧ s + len = e) ∨
     (s + len < e ∧ pred (s + len) ≠ f ∧ RunList pred e (s + len) rest)) := by
  cases h with
  | single _ _ hse hconst =>
    refine ⟨rfl, by omega, ?_, Or.inl ⟨rfl, by omega⟩⟩
    intro j h1 h2
    exact hconst j h1 (by omega)
  | cons _ m _ L hsm hme hconst hflip htail =>
    have hm : s + (m - s) = m := by omega
    refine ⟨rfl, by omega, ?_, Or.inr ?_⟩
    · intro j h1 h2
      exact hconst j h1 (by omega)
    · rw [hm]
      exact ⟨hme, hflip, htail⟩

lemma falseStart_ge {pred : Nat → Bool} {e s : Nat} {L : List (Bool × Nat × Nat)}
    (h : RunList pred e s L) : s ≤ falseStart e L := by
  induction h with
  | single s f hse _ =>
    cases f
    · simp [falseStart]
    · simp [falseStart]
      omega
  | cons s m f L hsm hme _ _ _ ih =>
    cases f
    · simp [falseStart]
    · simp [falseStart]
      omega

lemma mergeStep_true_head (s2 l2 : Nat) (rest : List (Bool × Nat × Nat)) (h : rest ≠ []) :
    ChunkFramework.mergeStep ((true, s2, l2) :: rest) =
      (true, s2, l2) :: ChunkFramework.mergeStep rest := by
  cases rest with
  | nil => exact absurd rfl h
  | cons r rs =>
    obtain ⟨b, s3, l3⟩ := r
    simp [ChunkFramework.mergeStep]

lemma mergeStep_false_true (s a m b : Nat) (rest : List (Bool × Nat × Nat)) :
    ChunkFramework.mergeStep ((false, s, a) :: (true, m, b) :: rest) =
      (false, s, a + b) :: ChunkFramework.mergeStep ((true, m, b) :: rest) := by
  simp [ChunkFramework.mergeStep]

lemma fullProcess_true_head (s2 l2 : Nat) (rest : List (Bool × Nat × Nat)) (h : rest ≠ []) :
    fullProcess ((true, s2, l2) :: rest) = fullProcess rest := by
  rw [fullProcess, mergeStep_true_head s2 l2 rest h]
  simp [fullProcess]

lemma fullProcess_false_true (s a m b : Nat) (rest : List (Bool × Nat × Nat)) :
    fullProcess ((false, s, a) :: (true, m, b) :: rest) =
      (ChunkMarkers.TEXT, s, a + b) :: fullProcess ((true, m, b) :: rest) := by
  rw [fullProcess, mergeStep_false_true s a m b rest]
  simp [fullProcess]

lemma fullProcess_single (f : Bool) (s l : Nat) :
    fullProcess [(f, s, l)] = if f then [] else [(ChunkMarkers.TEXT, s, l)] := by
  cases f <;> simp [fullProcess, ChunkFramework.mergeStep]

lemma fullProcess_single_true (s l : Nat) : fullProcess [(true, s, l)] = [] := by
  simp [fullProcess_single]

lemma fullProcess_single_false (s l : Nat) :
    fullProcess [(false, s, l)] = [(ChunkMarkers.TEXT, s, l)] := by
  simp [fullProcess_single]

lemma runs_process_good (pred : Nat → Bool) (e : Nat) :
    ∀ {s : Nat} {L : List (Bool × Nat × Nat)}, RunList pred e s L →
      List.Chain' (fun a b : Nat × Nat × Nat => a.2.1 + a.2.2 ≤ b.2.1) (fullProcess L) ∧
      (∀ sp ∈ fullProcess L, sp.1 = ChunkMarkers.TEXT ∧
        falseStart e L ≤ sp.2.1 ∧ sp.2.1 + sp.2.2 ≤ e ∧ SpanShape pred sp.2.1 sp.2.2) ∧
      (∀ j, s ≤ j → j < e → pred j = false →
        ∃ sp ∈ fullProcess L, sp.2.1 ≤ j ∧ j < sp.2.1 + sp.2.2) := by
  intro s L h
  induction h with
  | single s f hse hconst =>
    cases f
    · rw [fullProcess_single_false]
      refine ⟨List.chain'_singleton _, ?_, ?_⟩
      · intro sp hsp
        rw [List.mem_singleton] at hsp
        subst hsp
        refine ⟨rfl, ?_, show s + (e - s) ≤ e by omega, ?_⟩
        · simp [falseStart]
        · show SpanShape pred s (e - s)
          refine ⟨show 0 < e - s by omega, e - s, by omega, le_refl _, ?_, ?_⟩
          · intro i h1 h2
            exact hconst i h1 (by omega)
          · intro i h1 h2
            omega
      · intro j h1 h2 h3
        exact ⟨(ChunkMarkers.TEXT, s, e - s), List.mem_singleton.mpr rfl,
          show s ≤ j from h1, show j < s + (e - s) by omega⟩
    · rw [fullProcess_single_true]
      refine ⟨List.chain'_nil, ?_, ?_⟩
      · intro sp hsp
        cases hsp
      · intro j h1 h2 h3
        have hpj := hconst j h1 h2
        rw [h3] at hpj
        cases hpj
  | cons s m f L hsm hme hconst hflip htail ih =>
    obtain ⟨hchainL, hpropsL, hcovL⟩ := ih
    cases f
    · rcases L with _ | ⟨⟨f2, m2, len2⟩, rest⟩
      · exact absurd rfl (RunList_ne_nil htail)
      obtain ⟨hm2, hlen2, hconst2, halt⟩ := RunList_cons_inv htail
      subst hm2
      have hpm : pred m2 = true := by
        cases hpm : pred m2
        · exact absurd hpm hflip
        · rfl
      have hf2 : f2 = true := by
        have hq := hconst2 m2 (le_refl m2) (by omega)
        rw [hpm] at hq
        exact hq.symm
      subst hf2
      rw [fullProcess_false_true]
      have hshape : SpanShape pred s (m2 - s + len2) := by
        refine ⟨by omega, m2 - s, by omega, by omega, ?_, ?_⟩
        · intro i h1 h2
          exact hconst i h1 (by omega)
        · intro i h1 h2
          exact hconst2 i (by omega) (by omega)
      rcases halt with ⟨hrestnil, hEe⟩ | ⟨hEe, hflip2, htail2⟩
      · subst hrestnil
        rw [fullProcess_single_true]
        refine ⟨List.chain'_singleton _, ?_, ?_⟩
        · intro sp hsp
          rw [List.mem_singleton] at hsp
          subst hsp
          refine ⟨rfl, ?_, show s + (m2 - s + len2) ≤ e by omega, hshape⟩
          simp [falseStart]
        · intro j h1 h2 h3
          exact ⟨(ChunkMarkers.TEXT, s, m2 - s + len2), List.mem_singleton.mpr rfl,
            show s ≤ j from h1, show j < s + (m2 - s + len2) by omega⟩
      · have hrest_ne : rest ≠ [] := RunList_ne_nil htail2
        rw [fullProcess_true_head m2 len2 rest hrest_ne] at hchainL hpropsL hcovL ⊢
        have hfsL : falseStart e ((true, m2, len2) :: rest) = falseStart e rest := by
          simp [falseStart]
        rw [hfsL] at hpropsL
        have hfs_ge : m2 + len2 ≤ falseStart e rest := falseStart_ge htail2
        refine ⟨?_, ?_, ?_⟩
        · rw [List.chain'_cons']
          refine ⟨?_, hchainL⟩
          intro b hb
          have hbmem : b ∈ fullProcess rest := List.mem_of_mem_head? hb
          have hblo := (hpropsL b hbmem).2.1
          show s + (m2 - s + len2) ≤ b.2.1
          omega
        · intro sp hsp
          rcases List.mem_cons.mp hsp with rfl | hmem
          · refine ⟨rfl, ?_, show s + (m2 - s + len2) ≤ e by omega, hshape⟩
            simp [falseStart]
          · obtain ⟨hT, hlo, hup, hsh⟩ := hpropsL sp hmem
            refine ⟨hT, ?_, hup, hsh⟩
            show falseStart e ((false, s, m2 - s) :: (true, m2, len2) :: rest) ≤ sp.2.1
            simp only [falseStart, if_neg (by decide : ¬ (false = true))]
            omega
        · intro j h1 h2 h3
          by_cases hj : j < m2 + len2
          · exact ⟨(ChunkMarkers.TEXT, s, m2 - s + len2), List.mem_cons_self _ _,
              show s ≤ j from h1, show j < s + (m2 - s + len2) by omega⟩
          · obtain ⟨sp, hmem, hc⟩ := hcovL j (by omega) h2 h3
            exact ⟨sp, List.mem_cons_of_mem _ hmem, hc⟩
    · have hL_ne : L ≠ [] := RunList_ne_nil htail
      rw [fullProcess_true_head s (m - s) L hL_ne]
      have hfs : falseStart e ((true, s, m - s) :: L) = falseStart e L := by
        simp [falseStart]
      rw [hfs]
      refine ⟨hchainL, hpropsL, ?_⟩
      intro j h1 h2 h3
      by_cases hj : j < m
      · have hpj := hconst j h1 hj
        rw [h3] at hpj
        cases hpj
      · exact hcovL j (by omega) h2 h3

/-- C4 counterexample: on the text `"ཀ་"` (whole range `[0, 2)`) the embedded
`syllabify` returns the single span `[0, 2)`, which contains the separator
codepoint at index 1 (`་` has category `Tsek`); the claim that no returned
syllable span contains a separator codepoint is therefore false. -/
theorem syllabify_span_contains_separator :
    ChunkFramework.syllabify [] "ཀ་".toList 0 2 = [(ChunkMarkers.TEXT, 0, 2)] ∧
    ChunkFramework.isTsekOrLongSkrtVowel [] "ཀ་".toList 1 = true := by decide

/-- C4 (amended): `syllabify` splits a range at the codepoints whose category
is `Tsek` or whose value is U+0F7F or U+0F71, but each run of separators is
appended to the span of the preceding syllable rather than left out of both
sides (a run of separators at the start of the range is dropped).  Formally:
the returned spans are in strictly left-to-right order inside the range, each
is nonempty and consists of a nonempty block of non-separator codepoints
followed by the separator run after it (so no span starts with a separator and
empty syllables never occur), and every non-separator codepoint of the range
is covered by some span. -/
theorem syllabify_spans_shape (ignoreChars : List Char) (text : Str) (s e : Nat) :
    List.Chain' (fun a b : Nat × Nat × Nat => a.2.1 + a.2.2 ≤ b.2.1)
      (ChunkFramework.syllabify ignoreChars text s e) ∧
    (∀ sp ∈ ChunkFramework.syllabify ignoreChars text s e,
      sp.1 = ChunkMarkers.TEXT ∧ s ≤ sp.2.1 ∧ sp.2.1 + sp.2.2 ≤ e ∧
      SpanShape (ChunkFramework.isTsekOrLongSkrtVowel ignoreChars text) sp.2.1 sp.2.2) ∧
    (∀ j, s ≤ j → j < e →
      ChunkFramework.isTsekOrLongSkrtVowel ignoreChars text j = false →
      ∃ sp ∈ ChunkFramework.syllabify ignoreChars text s e,
        sp.2.1 ≤ j ∧ j < sp.2.1 + sp.2.2) := by
  by_cases hse : s < e
  · have hfp : ChunkFramework.syllabify ignoreChars text s e =
        fullProcess (ChunkFramework.chunkRuns
          (ChunkFramework.isTsekOrLongSkrtVowel ignoreChars text) s e) := rfl
    have hr := chunkRuns_runs (ChunkFramework.isTsekOrLongSkrtVowel ignoreChars text) s e hse
    obtain ⟨hchain, hprops, hcov⟩ :=
      runs_process_good (ChunkFramework.isTsekOrLongSkrtVowel ignoreChars text) e hr
    have hfs := falseStart_ge hr
    refine ⟨hfp ▸ hchain, ?_, ?_⟩
    · intro sp hsp
      rw [hfp] at hsp
      obtain ⟨hT, hlo, hup, hsh⟩ := hprops sp hsp
      exact ⟨hT, le_trans hfs hlo, hup, hsh⟩
    · intro j h1 h2 h3
      obtain ⟨sp, hmem, hc⟩ := hcov j h1 h2 h3
      rw [← hfp] at hmem
      exact ⟨sp, hmem, hc⟩
  · have hnil : ChunkFramework.syllabify ignoreChars text s e = [] := by
      simp [ChunkFramework.syllabify, ChunkFramework.chunkRuns, hse,
        ChunkFramework.mergeStep]
    rw [hnil]
    refine ⟨List.chain'_nil, ?_, ?_⟩
    · intro sp hsp
      cases hsp
    · intro j h1 h2 h3
      omega

/-- Witness for the amended C4 theorem: the span returned for `"ཀ་"` has the
non-separator-then-separator shape. -/
theorem syllabify_spans_shape_witness :
    SpanShape (ChunkFramework.isTsekOrLongSkrtVowel [] "ཀ་".toList) 0 2 :=
  ((syllabify_spans_shape [] "ཀ་".toList 0 2).2.1 (ChunkMarkers.TEXT, 0, 2) (by decide)).2.2.2
